import Mathlib

/-!
Shallow embedding of the okr-gantt schedule builder, from `src/okr/gantt.py`
and `src/okr/workdays.py`.

Dates: pandas timestamps at day granularity are modelled as natural numbers
counting days from a fixed Monday (day 0 = Monday 2024-12-30), so a date is a
plain `Nat`. Hence
`weekday d = d % 7` with 0 = Monday, ..., 6 = Sunday, matching python's
`Timestamp.weekday()`, and the next calendar day of `d` is `d + 1`.
Sets of dates are modelled as lists with membership via `List.contains`.
A python function that can raise an exception is modelled as returning
`Option` (`none` = an uncaught exception); the source defines no exception
class of its own and catches nothing.
-/


def weekday (d : Nat) : Nat := d % 7

/-- Model of `pd.date_range(start=start, periods=periods, freq="D")`:
the list of `periods` consecutive days starting at `start`. -/
def date_range (start : Nat) (periods : Nat) : List Nat :=
  (List.range periods).map (fun i => start + i)

/-- Python list indexing `w[i]`: a nonnegative index counts from the front,
a negative index counts from the back, and an out-of-range index raises
IndexError (modelled as `none`). -/
def pyGet (w : List Nat) (i : Int) : Option Nat :=
  if 0 ≤ i then w.get? i.toNat
  else if (-i).toNat ≤ w.length then w.get? (w.length - (-i).toNat)
  else none

/-- Structured timeline task, `TimelineTask = namedtuple(duration, group, task)`.
Raw input triples are normalized to this record form before scheduling, so the
embedding takes the record form directly. -/
structure TimelineTask where
  duration : Nat
  group : String
  task : String
  deriving DecidableEq, Repr

/-- One output row of the Gantt DataFrame: columns Task, Group, Start, End. -/
structure ScheduleRecord where
  Task : String
  Group : String
  Start : Nat
  End : Nat
  deriving DecidableEq, Repr

/-- The workday qualification test from `build_gantt_df`'s comprehension:
`(not exclude_weekends or day.weekday() < 5) and day not in non_workdays_set`. -/
def isWorkday (exclude_weekends : Bool) (non_workdays : List Nat) (day : Nat) : Bool :=
  (!exclude_weekends || decide (weekday day < 5)) && !(non_workdays.contains day)

/-- Total duration `max_days = sum(task.duration for task in typed_timeline)`. -/
def durSum (timeline : List TimelineTask) : Nat :=
  (timeline.map (fun t => t.duration)).sum

/-- The workday calendar of `build_gantt_df`:
`calendar = pd.date_range(start=init_date, periods=max_days * 3, freq="D")`
filtered by the workday comprehension. -/
def buildWorkdays (timeline : List TimelineTask) (init_date : Nat)
    (non_workdays : List Nat) (exclude_weekends : Bool) : List Nat :=
  (date_range init_date (durSum timeline * 3)).filter (isWorkday exclude_weekends non_workdays)

/-- The placement loop of `build_gantt_df`: `start = workdays[current_idx]`,
`end = workdays[current_idx + task.duration - 1]`, one appended row per task,
`current_idx += task.duration`. An IndexError aborts the whole call. -/
def placeTasks (workdays : List Nat) : List TimelineTask → Nat → Option (List ScheduleRecord)
  | [], _ => some []
  | t :: ts, idx =>
    match pyGet workdays idx, pyGet workdays ((idx : Int) + (t.duration : Int) - 1),
        placeTasks workdays ts (idx + t.duration) with
    | some s, some e, some rest =>
      some ({ Task := t.task, Group := t.group, Start := s, End := e } :: rest)
    | _, _, _ => none

/-- Model of `build_gantt_df(timeline, init_date, non_workdays, exclude_weekends)`.
The returned DataFrame is modelled as the list of its rows. -/
def build_gantt_df (timeline : List TimelineTask) (init_date : Nat)
    (non_workdays : List Nat) (exclude_weekends : Bool) : Option (List ScheduleRecord) :=
  placeTasks (buildWorkdays timeline init_date non_workdays exclude_weekends) timeline 0

/-- Maximum of the End column, `gantt_df[End].max()`; `none` models the error
on an empty frame (a DataFrame built from zero rows has no End column). -/
def maxEnd (records : List ScheduleRecord) : Option Nat :=
  (records.map (fun r => r.End)).max?

/-- The cursor-advance loop of `build_gantt_sequence`: scan the 30 calendar
days after `last_date` and take the first qualifying workday; when none is
found in the window the loop finishes without the break, leaving
`current_date` unchanged. -/
def advanceCursor (last_date : Nat) (non_workdays : List Nat)
    (exclude_weekends : Bool) (current_date : Nat) : Nat :=
  match (date_range (last_date + 1) 30).find? (isWorkday exclude_weekends non_workdays) with
  | some day => day
  | none => current_date

/-- Model of `build_gantt_sequence(timelines, init_date, non_workdays, exclude_weekends)`. -/
def build_gantt_sequence (timelines : List (List TimelineTask)) (init_date : Nat)
    (non_workdays : List Nat) (exclude_weekends : Bool) :
    Option (List (List ScheduleRecord)) :=
  match timelines with
  | [] => some []
  | tl :: tls =>
    match build_gantt_df tl init_date non_workdays exclude_weekends with
    | none => none
    | some records =>
      match maxEnd records with
      | none => none
      | some last_date =>
        match build_gantt_sequence tls
            (advanceCursor last_date non_workdays exclude_weekends init_date)
            non_workdays exclude_weekends with
        | none => none
        | some rest => some (records :: rest)

/-- Model of `estimate_workdays(start_date, end_date, non_workdays)` from
`src/okr/workdays.py`: `pd.date_range(start, end)` (inclusive, empty when the
end precedes the start), keep Monday-Friday, and when the `non_workdays`
argument is truthy also drop its members. -/
def estimate_workdays (start_date end_date : Nat) (non_workdays : List Nat) : Nat :=
  let all_days := date_range start_date (end_date + 1 - start_date)
  let weekdays := all_days.filter (fun d => decide (weekday d < 5))
  let workdays := if non_workdays.isEmpty then weekdays
    else weekdays.filter (fun d => !(non_workdays.contains d))
  workdays.length

/-- Spec-side counting rule of section 4.3, written from the spec's words:
the number of dates in the inclusive range [start_date, end_date] whose
weekday is Monday-Friday and which are not in the exclusion set. Present
only to be compared against `estimate_workdays`. -/
def count_workdays_spec (start_date end_date : Nat) (non_workdays : List Nat) : Nat :=
  ((date_range start_date (end_date + 1 - start_date)).filter
    (fun d => decide (weekday d < 5) && !(non_workdays.contains d))).length

/-- Number of qualifying workdays (per `isWorkday`) inside an inclusive span. -/
def countWorkdaysBetween (exclude_weekends : Bool) (non_workdays : List Nat)
    (s e : Nat) : Nat :=
  ((date_range s (e + 1 - s)).filter (isWorkday exclude_weekends non_workdays)).length

/-- Reference shape of a successful placement: row `i` spans the workdays at
positions `offset i` through `offset i + duration i - 1` of the workday
calendar, where `offset` accumulates the durations so far. -/
def placedSpec (workdays : List Nat) : List TimelineTask → Nat → List ScheduleRecord
  | [], _ => []
  | t :: ts, idx =>
    { Task := t.task, Group := t.group, Start := workdays.getD idx 0,
      End := workdays.getD (idx + t.duration - 1) 0 } :: placedSpec workdays ts (idx + t.duration)

/-! Helper lemmas about `date_range` and filtered calendars. -/

theorem date_range_succ (a n : Nat) : date_range a (n + 1) = a :: date_range (a + 1) n := by
  show (List.range (n + 1)).map (fun i => a + i) = a :: (List.range n).map (fun i => a + 1 + i)
  rw [List.range_succ_eq_map, List.map_cons, List.map_map]
  refine congrArg₂ List.cons rfl ?_
  refine List.map_congr_left (fun i _ => ?_)
  simp [Function.comp, Nat.succ_eq_add_one]
  omega

theorem mem_date_range {a n x : Nat} : x ∈ date_range a n ↔ a ≤ x ∧ x < a + n := by
  unfold date_range
  simp only [List.mem_map, List.mem_range]
  constructor
  · rintro ⟨i, hi, rfl⟩; omega
  · intro h; exact ⟨x - a, by omega, by omega⟩

theorem date_range_add (a m n : Nat) :
    date_range a (m + n) = date_range a m ++ date_range (a + m) n := by
  show (List.range (m + n)).map (fun i => a + i)
      = (List.range m).map (fun i => a + i) ++ (List.range n).map (fun i => a + m + i)
  rw [List.range_add, List.map_append, List.map_map]
  refine congrArg₂ List.append rfl ?_
  refine List.map_congr_left (fun i _ => ?_)
  simp [Function.comp]
  omega

theorem pairwise_date_range (a n : Nat) : (date_range a n).Pairwise (· < ·) := by
  refine List.pairwise_map.mpr ?_
  exact (List.sorted_lt_range n).imp (fun h => Nat.add_lt_add_left h a)

theorem mem_filter_date_range {p : Nat → Bool} {a n x : Nat} :
    x ∈ (date_range a n).filter p ↔ (a ≤ x ∧ x < a + n) ∧ p x = true := by
  rw [List.mem_filter, mem_date_range]

theorem pairwise_filter_date_range (p : Nat → Bool) (a n : Nat) :
    ((date_range a n).filter p).Pairwise (· < ·) :=
  List.Pairwise.sublist (List.filter_sublist _) (pairwise_date_range a n)

theorem sorted_get?_lt {w : List Nat} (hw : w.Pairwise (· < ·)) {i j : Nat} {x y : Nat}
    (hx : w.get? i = some x) (hy : w.get? j = some y) (hij : i < j) : x < y := by
  obtain ⟨hi, rfl⟩ := List.get?_eq_some.mp hx
  obtain ⟨hj, rfl⟩ := List.get?_eq_some.mp hy
  exact List.pairwise_iff_get.mp hw ⟨i, hi⟩ ⟨j, hj⟩ hij

theorem sorted_get?_le {w : List Nat} (hw : w.Pairwise (· < ·)) {i j : Nat} {x y : Nat}
    (hx : w.get? i = some x) (hy : w.get? j = some y) (hij : i ≤ j) : x ≤ y := by
  rcases Nat.eq_or_lt_of_le hij with rfl | h
  · rw [hx] at hy
    exact le_of_eq (Option.some.inj hy)
  · exact le_of_lt (sorted_get?_lt hw hx hy h)

theorem sorted_get?_index_lt {w : List Nat} (hw : w.Pairwise (· < ·)) {i j : Nat} {x y : Nat}
    (hx : w.get? i = some x) (hy : w.get? j = some y) (hxy : x < y) : i < j := by
  by_contra h
  have hle : j ≤ i := by omega
  have hyx : y ≤ x := sorted_get?_le hw hy hx hle
  omega

theorem get?_eq_some_getD {w : List Nat} {i : Nat} (h : i < w.length) :
    w.get? i = some (w.getD i 0) := by
  rw [List.get?_eq_get h, List.getD_eq_getElem w 0 h]
  rfl

theorem filter_date_range_gap {p : Nat → Bool} {a n i : Nat} {x y : Nat}
    (hx : ((date_range a n).filter p).get? i = some x)
    (hy : ((date_range a n).filter p).get? (i + 1) = some y)
    {z : Nat} (hxz : x < z) (hzy : z < y) : p z = false := by
  cases hpz : p z with
  | false => rfl
  | true =>
    exfalso
    obtain ⟨⟨hx1, hx2⟩, -⟩ := mem_filter_date_range.mp (List.get?_mem hx)
    obtain ⟨⟨hy1, hy2⟩, -⟩ := mem_filter_date_range.mp (List.get?_mem hy)
    have hzm : z ∈ (date_range a n).filter p :=
      mem_filter_date_range.mpr ⟨⟨by omega, by omega⟩, hpz⟩
    obtain ⟨j, hj⟩ := List.get?_of_mem hzm
    have hw := pairwise_filter_date_range p a n
    have h1 : i < j := sorted_get?_index_lt hw hx hj hxz
    have h2 : j < i + 1 := sorted_get?_index_lt hw hj hy hzy
    omega

/-- Core counting fact: between the workday-calendar entries at positions
`i` and `i + k` lie exactly `k + 1` qualifying days. -/
theorem filter_count_between (p : Nat → Bool) (a n : Nat) :
    ∀ (k i : Nat) (s e : Nat),
      ((date_range a n).filter p).get? i = some s →
      ((date_range a n).filter p).get? (i + k) = some e →
      ((date_range s (e + 1 - s)).filter p).length = k + 1 := by
  intro k
  induction k with
  | zero =>
    intro i s e hs he
    simp only [Nat.add_zero] at he
    rw [hs] at he
    obtain rfl : s = e := Option.some.inj he
    have hps : p s = true := (mem_filter_date_range.mp (List.get?_mem hs)).2
    have h1 : s + 1 - s = 1 := by omega
    rw [h1, date_range_succ]
    have h0 : date_range (s + 1) 0 = [] := rfl
    rw [h0, List.filter_cons, if_pos hps]
    rfl
  | succ k ih =>
    intro i s e hs he
    obtain ⟨hlen, -⟩ := List.get?_eq_some.mp he
    have hi1 : i + 1 < ((date_range a n).filter p).length := by omega
    obtain ⟨s1, hs1⟩ : ∃ s1, ((date_range a n).filter p).get? (i + 1) = some s1 :=
      ⟨_, List.get?_eq_get hi1⟩
    have hw := pairwise_filter_date_range p a n
    have hss1 : s < s1 := sorted_get?_lt hw hs hs1 (by omega)
    have hs1e : s1 ≤ e := sorted_get?_le hw hs1 he (by omega)
    have hsplit : e + 1 - s = (s1 - s) + (e + 1 - s1) := by omega
    rw [hsplit, date_range_add, List.filter_append, List.length_append]
    have hps : p s = true := (mem_filter_date_range.mp (List.get?_mem hs)).2
    have hfirst : ((date_range s (s1 - s)).filter p).length = 1 := by
      have hd : s1 - s = (s1 - s - 1) + 1 := by omega
      rw [hd, date_range_succ, List.filter_cons, if_pos hps]
      have hrest : (date_range (s + 1) (s1 - s - 1)).filter p = [] := by
        rw [List.filter_eq_nil_iff]
        intro z hz
        rw [mem_date_range] at hz
        have hzf : p z = false := filter_date_range_gap hs hs1 (by omega) (by omega)
        simp [hzf]
      rw [hrest]
      rfl
    have hsadd : s + (s1 - s) = s1 := by omega
    rw [hsadd]
    have hsecond : ((date_range s1 (e + 1 - s1)).filter p).length = k + 1 := by
      refine ih (i + 1) s1 e hs1 ?_
      have harith : i + 1 + k = i + (k + 1) := by omega
      rw [harith]
      exact he
    omega

/-! Helper lemmas about durations and the placement loop. -/

theorem durSum_cons (t : TimelineTask) (ts : List TimelineTask) :
    durSum (t :: ts) = t.duration + durSum ts := by
  simp [durSum]

theorem durSum_append (l1 l2 : List TimelineTask) :
    durSum (l1 ++ l2) = durSum l1 + durSum l2 := by
  simp [durSum]

theorem durSum_take_le (ts : List TimelineTask) (i : Nat) :
    durSum (ts.take i) ≤ durSum ts := by
  conv_rhs => rw [← List.take_append_drop i ts]
  rw [durSum_append]
  omega

theorem durSum_take_succ {ts : List TimelineTask} {i : Nat} {t : TimelineTask}
    (h : ts.get? i = some t) :
    durSum (ts.take (i + 1)) = durSum (ts.take i) + t.duration := by
  rw [List.take_succ, durSum_append]
  have hE : ts[i]? = some t := by rw [← List.get?_eq_getElem?]; exact h
  rw [hE]
  simp [durSum]

theorem pyGet_nat (w : List Nat) (i : Nat) : pyGet w (i : Int) = w.get? i := by
  unfold pyGet
  rw [if_pos (Int.ofNat_nonneg i)]
  simp

theorem placeTasks_eq_placedSpec (w : List Nat) :
    ∀ (ts : List TimelineTask) (idx : Nat),
      (∀ t ∈ ts, 1 ≤ t.duration) → idx + durSum ts ≤ w.length →
      placeTasks w ts idx = some (placedSpec w ts idx) := by
  intro ts
  induction ts with
  | nil => intro idx _ _; rfl
  | cons t ts ih =>
    intro idx hpos hlen
    have hd : 1 ≤ t.duration := hpos t (by simp)
    rw [durSum_cons] at hlen
    have hidx : idx < w.length := by omega
    have hend : idx + t.duration - 1 < w.length := by omega
    have h1 : pyGet w (idx : Int) = some (w.getD idx 0) := by
      rw [pyGet_nat]
      exact get?_eq_some_getD hidx
    have hcast : (idx : Int) + (t.duration : Int) - 1 = ((idx + t.duration - 1 : Nat) : Int) := by
      omega
    have h2 : pyGet w ((idx : Int) + (t.duration : Int) - 1)
        = some (w.getD (idx + t.duration - 1) 0) := by
      rw [hcast, pyGet_nat]
      exact get?_eq_some_getD hend
    have h3 : placeTasks w ts (idx + t.duration) = some (placedSpec w ts (idx + t.duration)) :=
      ih (idx + t.duration) (fun u hu => hpos u (by simp [hu])) (by omega)
    show (match pyGet w (idx : Int), pyGet w ((idx : Int) + (t.duration : Int) - 1),
        placeTasks w ts (idx + t.duration) with
      | some s, some e, some rest =>
        some ({ Task := t.task, Group := t.group, Start := s, End := e } :: rest)
      | _, _, _ => none) = some (placedSpec w (t :: ts) idx)
    rw [h1, h2, h3]
    rfl

theorem placedSpec_length (w : List Nat) :
    ∀ (ts : List TimelineTask) (idx : Nat), (placedSpec w ts idx).length = ts.length := by
  intro ts
  induction ts with
  | nil => intro idx; rfl
  | cons t ts ih => intro idx; simp [placedSpec, ih]

theorem placedSpec_get? (w : List Nat) :
    ∀ (ts : List TimelineTask) (idx i : Nat) (t : TimelineTask),
      ts.get? i = some t →
      (placedSpec w ts idx).get? i =
        some { Task := t.task, Group := t.group,
               Start := w.getD (idx + durSum (ts.take i)) 0,
               End := w.getD (idx + durSum (ts.take i) + t.duration - 1) 0 } := by
  intro ts
  induction ts with
  | nil => intro idx i t h; simp at h
  | cons u ts ih =>
    intro idx i t h
    cases i with
    | zero =>
      obtain rfl : u = t := by simpa using h
      simp [placedSpec, durSum]
    | succ i =>
      have htail : ts.get? i = some t := by simpa using h
      have h2 := ih (idx + u.duration) i t htail
      show (placedSpec w ts (idx + u.duration)).get? i = _
      rw [h2]
      have harr : (u :: ts).take (i + 1) = u :: ts.take i := rfl
      rw [harr, durSum_cons]
      have ha : idx + u.duration + durSum (ts.take i)
          = idx + (u.duration + durSum (ts.take i)) := by omega
      rw [ha]

/-- C1: for every non-empty timeline of tasks with positive durations, every
init date, every exclusion set and both weekend-flag settings, provided the
generated workday sequence is long enough to place all tasks, each returned
record's inclusive span [Start, End] contains exactly `duration` qualifying
workdays (days passing the weekend rule and not in the exclusion set). -/
theorem C1_span_contains_exactly_duration_workdays
    (tl : List TimelineTask) (init_date : Nat) (non_workdays : List Nat)
    (exclude_weekends : Bool)
    ( _hne : tl ≠ []) (hpos : ∀ t ∈ tl, 1 ≤ t.duration)
    (hlen : durSum tl ≤ (buildWorkdays tl init_date non_workdays exclude_weekends).length)
    (records : List ScheduleRecord)
    (hres : build_gantt_df tl init_date non_workdays exclude_weekends = some records)
    (i : Nat) (t : TimelineTask) (r : ScheduleRecord)
    (ht : tl.get? i = some t) (hr : records.get? i = some r) :
    countWorkdaysBetween exclude_weekends non_workdays r.Start r.End = t.duration := by
  have hplace : build_gantt_df tl init_date non_workdays exclude_weekends
      = some (placedSpec (buildWorkdays tl init_date non_workdays exclude_weekends) tl 0) :=
    placeTasks_eq_placedSpec _ tl 0 hpos (by omega)
  rw [hplace] at hres
  obtain rfl : records = placedSpec (buildWorkdays tl init_date non_workdays exclude_weekends) tl 0 :=
    (Option.some.inj hres).symm
  have hget := placedSpec_get? (buildWorkdays tl init_date non_workdays exclude_weekends) tl 0 i t ht
  simp only [Nat.zero_add] at hget
  rw [hget] at hr
  obtain rfl : r = _ := (Option.some.inj hr).symm
  have hd : 1 ≤ t.duration := hpos t (List.get?_mem ht)
  have hbound : durSum (tl.take i) + t.duration ≤ durSum tl := by
    have h1 := durSum_take_succ ht
    have h2 := durSum_take_le tl (i + 1)
    omega
  have hwlen : durSum (tl.take i) + t.duration
      ≤ (buildWorkdays tl init_date non_workdays exclude_weekends).length := le_trans hbound hlen
  have hs : (buildWorkdays tl init_date non_workdays exclude_weekends).get? (durSum (tl.take i))
      = some ((buildWorkdays tl init_date non_workdays exclude_weekends).getD (durSum (tl.take i)) 0) :=
    get?_eq_some_getD (by omega)
  have he : (buildWorkdays tl init_date non_workdays exclude_weekends).get?
        (durSum (tl.take i) + (t.duration - 1))
      = some ((buildWorkdays tl init_date non_workdays exclude_weekends).getD
        (durSum (tl.take i) + t.duration - 1) 0) := by
    have harith : durSum (tl.take i) + (t.duration - 1) = durSum (tl.take i) + t.duration - 1 := by
      omega
    rw [harith]
    exact get?_eq_some_getD (by omega)
  have hcount := filter_count_between (isWorkday exclude_weekends non_workdays) init_date
    (durSum tl * 3) (t.duration - 1) (durSum (tl.take i)) _ _ hs he
  show ((date_range _ _).filter (isWorkday exclude_weekends non_workdays)).length = t.duration
  rw [hcount]
  omega

/-- Witness for C1 at the singleton timeline [(1, A, x)] from day 0. -/
theorem C1_span_contains_exactly_duration_workdays_witness :
    countWorkdaysBetween true [] 0 0 = 1 :=
  C1_span_contains_exactly_duration_workdays [⟨1, "A", "x"⟩] 0 [] true
    (by decide) (by decide) (by decide) [⟨"x", "A", 0, 0⟩] (by decide)
    0 ⟨1, "A", "x"⟩ ⟨"x", "A", 0, 0⟩ rfl rfl

/-- C2: for every non-empty timeline with positive durations whose exclusion
set leaves enough workdays in the candidate window, `build_gantt_df` returns
exactly one record per input task, in the same order, record i carrying
task i's description and group. -/
theorem C2_one_record_per_task_in_order
    (tl : List TimelineTask) (init_date : Nat) (non_workdays : List Nat)
    (exclude_weekends : Bool)
    ( _hne : tl ≠ []) (hpos : ∀ t ∈ tl, 1 ≤ t.duration)
    (hlen : durSum tl ≤ (buildWorkdays tl init_date non_workdays exclude_weekends).length) :
    ∃ records, build_gantt_df tl init_date non_workdays exclude_weekends = some records ∧
      records.length = tl.length ∧
      ∀ (i : Nat) (t : TimelineTask), tl.get? i = some t →
        ∃ r, records.get? i = some r ∧ r.Task = t.task ∧ r.Group = t.group := by
  refine ⟨placedSpec (buildWorkdays tl init_date non_workdays exclude_weekends) tl 0,
    placeTasks_eq_placedSpec _ tl 0 hpos (by omega), placedSpec_length _ tl 0, ?_⟩
  intro i t ht
  exact ⟨_, placedSpec_get? _ tl 0 i t ht, rfl, rfl⟩

/-- Witness for C2 at the singleton timeline [(1, A, x)] from day 0. -/
theorem C2_one_record_per_task_in_order_witness :
    ∃ records, build_gantt_df [⟨1, "A", "x"⟩] 0 [] true = some records ∧
      records.length = 1 ∧
      ∀ (i : Nat) (t : TimelineTask), ([⟨1, "A", "x"⟩] : List TimelineTask).get? i = some t →
        ∃ r, records.get? i = some r ∧ r.Task = t.task ∧ r.Group = t.group :=
  C2_one_record_per_task_in_order [⟨1, "A", "x"⟩] 0 [] true (by decide) (by decide) (by decide)

/-- C3: within one scheduled timeline, each task's start date is the first
qualifying workday strictly after the previous task's end date. -/
theorem C3_next_task_starts_on_first_workday_after
    (tl : List TimelineTask) (init_date : Nat) (non_workdays : List Nat)
    (exclude_weekends : Bool)
    ( _hne : tl ≠ []) (hpos : ∀ t ∈ tl, 1 ≤ t.duration)
    (hlen : durSum tl ≤ (buildWorkdays tl init_date non_workdays exclude_weekends).length)
    (records : List ScheduleRecord)
    (hres : build_gantt_df tl init_date non_workdays exclude_weekends = some records)
    (n : Nat) (t t1 : TimelineTask) (r r1 : ScheduleRecord)
    (ht : tl.get? n = some t) (ht1 : tl.get? (n + 1) = some t1)
    (hr : records.get? n = some r) (hr1 : records.get? (n + 1) = some r1) :
    r.End < r1.Start ∧
      isWorkday exclude_weekends non_workdays r1.Start = true ∧
      ∀ x, r.End < x → x < r1.Start → isWorkday exclude_weekends non_workdays x = false := by
  have hplace : build_gantt_df tl init_date non_workdays exclude_weekends
      = some (placedSpec (buildWorkdays tl init_date non_workdays exclude_weekends) tl 0) :=
    placeTasks_eq_placedSpec _ tl 0 hpos (by omega)
  rw [hplace] at hres
  obtain rfl : records = placedSpec (buildWorkdays tl init_date non_workdays exclude_weekends) tl 0 :=
    (Option.some.inj hres).symm
  have hget := placedSpec_get? (buildWorkdays tl init_date non_workdays exclude_weekends) tl 0 n t ht
  have hget1 := placedSpec_get? (buildWorkdays tl init_date non_workdays exclude_weekends) tl 0 (n + 1) t1 ht1
  simp only [Nat.zero_add] at hget hget1
  rw [hget] at hr
  rw [hget1] at hr1
  obtain rfl : r = _ := (Option.some.inj hr).symm
  obtain rfl : r1 = _ := (Option.some.inj hr1).symm
  have hd : 1 ≤ t.duration := hpos t (List.get?_mem ht)
  have hd1 : 1 ≤ t1.duration := hpos t1 (List.get?_mem ht1)
  have hsucc : durSum (tl.take (n + 1)) = durSum (tl.take n) + t.duration := durSum_take_succ ht
  have hbound : durSum (tl.take (n + 1)) + t1.duration ≤ durSum tl := by
    have h1 := durSum_take_succ ht1
    have h2 := durSum_take_le tl (n + 1 + 1)
    omega
  have hwlen := hlen
  have hjlt : durSum (tl.take n) + t.duration - 1
      < (buildWorkdays tl init_date non_workdays exclude_weekends).length := by omega
  have hj1lt : durSum (tl.take (n + 1))
      < (buildWorkdays tl init_date non_workdays exclude_weekends).length := by omega
  have hE : (buildWorkdays tl init_date non_workdays exclude_weekends).get?
        (durSum (tl.take n) + t.duration - 1)
      = some ((buildWorkdays tl init_date non_workdays exclude_weekends).getD
        (durSum (tl.take n) + t.duration - 1) 0) := get?_eq_some_getD hjlt
  have hS : (buildWorkdays tl init_date non_workdays exclude_weekends).get?
        (durSum (tl.take n) + t.duration - 1 + 1)
      = some ((buildWorkdays tl init_date non_workdays exclude_weekends).getD
        (durSum (tl.take (n + 1))) 0) := by
    have harith : durSum (tl.take n) + t.duration - 1 + 1 = durSum (tl.take (n + 1)) := by omega
    rw [harith]
    exact get?_eq_some_getD hj1lt
  have hw := pairwise_filter_date_range (isWorkday exclude_weekends non_workdays) init_date
    (durSum tl * 3)
  refine ⟨sorted_get?_lt hw hE hS (by omega), ?_, ?_⟩
  · exact (mem_filter_date_range.mp (List.get?_mem hS)).2
  · intro x hx1 hx2
    exact filter_date_range_gap hE hS hx1 hx2

/-- Witness for C3 at the timeline [(1, A, x), (1, B, y)] from day 0. -/
theorem C3_next_task_starts_on_first_workday_after_witness :
    (0 : Nat) < 1 ∧ isWorkday true [] 1 = true ∧
      ∀ x, 0 < x → x < 1 → isWorkday true [] x = false :=
  C3_next_task_starts_on_first_workday_after [⟨1, "A", "x"⟩, ⟨1, "B", "y"⟩] 0 [] true
    (by decide) (by decide) (by decide)
    [⟨"x", "A", 0, 0⟩, ⟨"y", "B", 1, 1⟩] (by decide)
    0 ⟨1, "A", "x"⟩ ⟨1, "B", "y"⟩ ⟨"x", "A", 0, 0⟩ ⟨"y", "B", 1, 1⟩ rfl rfl rfl rfl

/-- Successful placement yields one record per task, whatever the inputs. -/
theorem placeTasks_some_length (w : List Nat) :
    ∀ (ts : List TimelineTask) (idx : Nat) (records : List ScheduleRecord),
      placeTasks w ts idx = some records → records.length = ts.length := by
  intro ts
  induction ts with
  | nil =>
    intro idx records h
    obtain rfl : records = [] := (Option.some.inj h).symm
    rfl
  | cons t ts ih =>
    intro idx records h
    simp only [placeTasks] at h
    cases hA : pyGet w (idx : Int) with
    | none => rw [hA] at h; cases h
    | some s =>
      rw [hA] at h
      cases hB : pyGet w ((idx : Int) + (t.duration : Int) - 1) with
      | none => rw [hB] at h; cases h
      | some e =>
        rw [hB] at h
        cases hC : placeTasks w ts (idx + t.duration) with
        | none => rw [hC] at h; cases h
        | some rest =>
          rw [hC] at h
          obtain rfl : records = _ :: rest := (Option.some.inj h).symm
          simp [ih (idx + t.duration) rest hC]

/-- C5 counterexample: contrary to the claim, an empty timeline makes the
scheduler return successfully (an empty record list), raising nothing. -/
theorem C5_counterexample_empty_timeline_no_error :
    build_gantt_df [] 0 [] true = some [] := rfl

/-- C5 amended: the scheduler performs no input validation and raises no
ValidationError. An empty timeline returns an empty record list without
error; a non-positive duration is not rejected; and when the workday
sequence is exhausted the call fails as a whole (an uncaught index error,
`none`), never returning a truncated list: any successful result carries
exactly one record per input task. -/
theorem C5_amended_no_validation_no_truncation
    (tl : List TimelineTask) (init_date : Nat) (non_workdays : List Nat)
    (exclude_weekends : Bool) :
    (tl = [] → build_gantt_df tl init_date non_workdays exclude_weekends = some []) ∧
    ∀ records, build_gantt_df tl init_date non_workdays exclude_weekends = some records →
      records.length = tl.length := by
  constructor
  · rintro rfl
    rfl
  · intro records hres
    exact placeTasks_some_length _ tl 0 records hres

/-- Witness for the amended C5 at an empty timeline. -/
theorem C5_amended_no_validation_no_truncation_witness :
    build_gantt_df [] 5 [] true = some [] :=
  (C5_amended_no_validation_no_truncation [] 5 [] true).1 rfl

/-- C7: scheduling [(2,A,x),(3,A,y)] from Monday 2025-01-06 (= day 7) with
weekends skipped and exclusion set containing 2025-01-08 (= day 9) yields task x
spanning 2025-01-06 to 2025-01-07 (days 7 to 8) and task y spanning
2025-01-09 to 2025-01-13 (days 10 to 14). -/
theorem C7_concrete_scenario_with_exclusion :
    build_gantt_df [⟨2, "A", "x"⟩, ⟨3, "A", "y"⟩] 7 [9] true
      = some [⟨"x", "A", 7, 8⟩, ⟨"y", "A", 10, 14⟩] := by decide

/-- C10: with an empty timeline the scheduler returns an empty record list
and raises no error, for every init date, exclusion set and weekend flag. -/
theorem C10_empty_timeline_returns_empty_result (init_date : Nat)
    (non_workdays : List Nat) (exclude_weekends : Bool) :
    build_gantt_df [] init_date non_workdays exclude_weekends = some [] := rfl

/-- C9: when the end date strictly precedes the start date,
`estimate_workdays` returns 0 (it does not raise). -/
theorem C9_end_before_start_returns_zero
    (start_date end_date : Nat) (non_workdays : List Nat)
    (h : end_date < start_date) :
    estimate_workdays start_date end_date non_workdays = 0 := by
  have h0 : end_date + 1 - start_date = 0 := by omega
  simp only [estimate_workdays, h0, date_range, List.range_zero, List.map_nil,
    List.filter_nil]
  cases non_workdays.isEmpty <;> simp

/-- Witness for C9 at start day 5, end day 3. -/
theorem C9_end_before_start_returns_zero_witness :
    estimate_workdays 5 3 [] = 0 :=
  C9_end_before_start_returns_zero 5 3 [] (by decide)

/-- C8: for start_date ≤ end_date, `estimate_workdays` returns the number of
dates in the inclusive range whose weekday is Monday-Friday and which are
not excluded; in particular days 7 to 13 (2025-01-06 to 2025-01-12) with no
exclusions give 5. -/
theorem C8_estimate_workdays_matches_spec
    (start_date end_date : Nat) (non_workdays : List Nat)
    ( _h : start_date ≤ end_date) :
    estimate_workdays start_date end_date non_workdays
        = count_workdays_spec start_date end_date non_workdays ∧
      estimate_workdays 7 13 [] = 5 := by
  refine ⟨?_, by decide⟩
  simp only [estimate_workdays, count_workdays_spec]
  cases hnw : non_workdays.isEmpty with
  | true =>
    obtain rfl : non_workdays = [] := by
      cases non_workdays with
      | nil => rfl
      | cons a l => simp at hnw
    simp only [if_true]
    refine congrArg List.length (List.filter_congr (fun d _ => ?_)).symm
    simp [List.contains]
  | false =>
    simp only [Bool.false_eq_true, if_false, List.filter_filter]
    refine congrArg List.length (List.filter_congr (fun d _ => ?_))
    rw [Bool.and_comm]

/-- Witness for C8 at the range day 7 to day 13 with no exclusions. -/
theorem C8_estimate_workdays_matches_spec_witness :
    estimate_workdays 7 13 [] = count_workdays_spec 7 13 [] ∧
      estimate_workdays 7 13 [] = 5 :=
  C8_estimate_workdays_matches_spec 7 13 [] (by decide)

/-! Helper lemmas for the multi-timeline chainer. -/

theorem build_gantt_sequence_length :
    ∀ (tls : List (List TimelineTask)) (init_date : Nat) (non_workdays : List Nat)
      (exclude_weekends : Bool) (rss : List (List ScheduleRecord)),
      build_gantt_sequence tls init_date non_workdays exclude_weekends = some rss →
      rss.length = tls.length := by
  intro tls
  induction tls with
  | nil =>
    intro init nw ew rss h
    obtain rfl : rss = [] := (Option.some.inj h).symm
    rfl
  | cons tl tls ih =>
    intro init nw ew rss h
    simp only [build_gantt_sequence] at h
    split at h
    · cases h
    · rename_i records hA
      split at h
      · cases h
      · rename_i last hB
        split at h
        · cases h
        · rename_i rest hC
          obtain rfl : rss = records :: rest := (Option.some.inj h).symm
          simp [ih _ _ _ rest hC]

/-- A successful `find?` over a window of consecutive days returns the first
qualifying day of the window. -/
theorem find?_date_range_first (p : Nat → Bool) :
    ∀ (n a d : Nat), (date_range a n).find? p = some d →
      a ≤ d ∧ d < a + n ∧ p d = true ∧ ∀ x, a ≤ x → x < d → p x = false := by
  intro n
  induction n with
  | zero =>
    intro a d h
    simp [date_range] at h
  | succ n ih =>
    intro a d h
    rw [date_range_succ, List.find?_cons] at h
    cases hpa : p a with
    | true =>
      rw [hpa] at h
      obtain rfl : a = d := Option.some.inj h
      exact ⟨Nat.le_refl a, by omega, hpa, fun x hx1 hx2 => by omega⟩
    | false =>
      rw [hpa] at h
      obtain ⟨h1, h2, h3, h4⟩ := ih (a + 1) d h
      refine ⟨by omega, by omega, h3, ?_⟩
      intro x hx1 hx2
      rcases Nat.eq_or_lt_of_le hx1 with rfl | hlt
      · exact hpa
      · exact h4 x (by omega) hx2

theorem find?_of_filter_ne_nil {p : Nat → Bool} {l : List Nat}
    (h : l.filter p ≠ []) : ∃ d, l.find? p = some d := by
  cases hf : l.find? p with
  | some d => exact ⟨d, rfl⟩
  | none =>
    rw [List.find?_eq_none] at hf
    exact absurd (List.filter_eq_nil_iff.mpr hf) h

/-- When the init date itself qualifies as a workday and the timeline is not
trivially empty of work, a successful `build_gantt_df` starts its first record
on the init date. -/
theorem build_gantt_df_head_start
    (t : TimelineTask) (ts : List TimelineTask) (init_date : Nat)
    (non_workdays : List Nat) (exclude_weekends : Bool)
    (records : List ScheduleRecord)
    (hres : build_gantt_df (t :: ts) init_date non_workdays exclude_weekends = some records)
    (hq : isWorkday exclude_weekends non_workdays init_date = true)
    (hd : 1 ≤ durSum (t :: ts)) :
    ∃ r rest, records = r :: rest ∧ r.Start = init_date := by
  obtain ⟨m, hm⟩ : ∃ m, durSum (t :: ts) * 3 = m + 1 := ⟨durSum (t :: ts) * 3 - 1, by omega⟩
  unfold build_gantt_df buildWorkdays at hres
  rw [hm, date_range_succ, List.filter_cons, if_pos hq] at hres
  simp only [placeTasks, Nat.cast_zero, zero_add] at hres
  have h0 : pyGet (init_date :: (date_range (init_date + 1) m).filter
      (isWorkday exclude_weekends non_workdays)) (0 : Int) = some init_date := rfl
  rw [h0] at hres
  cases hB : pyGet (init_date :: (date_range (init_date + 1) m).filter
      (isWorkday exclude_weekends non_workdays)) ((t.duration : Int) - 1) with
  | none => rw [hB] at hres; cases hres
  | some e =>
    rw [hB] at hres
    cases hC : placeTasks (init_date :: (date_range (init_date + 1) m).filter
        (isWorkday exclude_weekends non_workdays)) ts t.duration with
    | none => rw [hC] at hres; cases hres
    | some rest =>
      rw [hC] at hres
      obtain rfl : records = _ :: rest := (Option.some.inj hres).symm
      exact ⟨_, rest, rfl, rfl⟩

/-- C4: in a chained schedule, every later timeline's first task starts on
the first qualifying workday strictly after the previous timeline's maximum
end date, provided a qualifying workday exists within the 30-day scan window
after that end date and all durations are positive. -/
theorem C4_chained_timeline_starts_after_previous
    (non_workdays : List Nat) (exclude_weekends : Bool) :
    ∀ (tls : List (List TimelineTask)) (init_date : Nat)
      (rss : List (List ScheduleRecord)),
      build_gantt_sequence tls init_date non_workdays exclude_weekends = some rss →
      (∀ tl ∈ tls, ∀ t ∈ tl, 1 ≤ t.duration) →
      ∀ (k : Nat) (rs1 rs2 : List ScheduleRecord) (last_date : Nat),
        rss.get? k = some rs1 → rss.get? (k + 1) = some rs2 →
        maxEnd rs1 = some last_date →
        (date_range (last_date + 1) 30).filter
            (isWorkday exclude_weekends non_workdays) ≠ [] →
        ∃ r rest, rs2 = r :: rest ∧
          last_date < r.Start ∧
          isWorkday exclude_weekends non_workdays r.Start = true ∧
          ∀ x, last_date < x → x < r.Start →
            isWorkday exclude_weekends non_workdays x = false := by
  intro tls
  induction tls with
  | nil =>
    intro init rss hres hpos k rs1 rs2 last_date hk hk1 hmax hwin
    obtain rfl : rss = [] := (Option.some.inj hres).symm
    simp at hk
  | cons tl tls ih =>
    intro init rss hres hpos k rs1 rs2 last_date hk hk1 hmax hwin
    simp only [build_gantt_sequence] at hres
    split at hres
    · cases hres
    · rename_i records hA
      split at hres
      · cases hres
      · rename_i last0 hB
        split at hres
        · cases hres
        · rename_i rest hC
          obtain rfl : rss = records :: rest := (Option.some.inj hres).symm
          cases k with
          | succ k =>
            have hk2 : rest.get? k = some rs1 := by simpa using hk
            have hk3 : rest.get? (k + 1) = some rs2 := by simpa using hk1
            exact ih _ rest hC (fun u hu t htm => hpos u (by simp [hu]) t htm)
              k rs1 rs2 last_date hk2 hk3 hmax hwin
          | zero =>
            have hrec1 : records = rs1 := by simpa using hk
            have hk3 : rest.get? 0 = some rs2 := by simpa using hk1
            have hlast : last0 = last_date := by
              rw [← hrec1] at hmax
              exact Option.some.inj (hB.symm.trans hmax)
            rw [hlast] at hC
            obtain ⟨d, hfind⟩ := find?_of_filter_ne_nil hwin
            have hadv : advanceCursor last_date non_workdays exclude_weekends init = d := by
              unfold advanceCursor
              rw [hfind]
            obtain ⟨hd1, hd2, hd3, hd4⟩ :=
              find?_date_range_first (isWorkday exclude_weekends non_workdays) 30
                (last_date + 1) d hfind
            cases tls with
            | nil =>
              obtain rfl : rest = [] := (Option.some.inj hC).symm
              simp at hk3
            | cons tl2 tls2 =>
              simp only [build_gantt_sequence] at hC
              split at hC
              · cases hC
              · rename_i records2 hA2
                split at hC
                · cases hC
                · rename_i last2 hB2
                  split at hC
                  · cases hC
                  · rename_i rest2 hC2
                    obtain rfl : rest = records2 :: rest2 := (Option.some.inj hC).symm
                    have hrec2 : records2 = rs2 := by simpa using hk3
                    rw [hrec2] at hA2
                    cases tl2 with
                    | nil =>
                      have hnil : rs2 = [] := (Option.some.inj hA2).symm
                      rw [hrec2, hnil] at hB2
                      cases hB2
                    | cons u us =>
                      rw [hadv] at hA2
                      have hdur : 1 ≤ durSum (u :: us) := by
                        have hu : 1 ≤ u.duration :=
                          hpos (u :: us) (by simp) u (by simp)
                        rw [durSum_cons]
                        omega
                      obtain ⟨r, rest3, hrec, hstart⟩ :=
                        build_gantt_df_head_start u us d non_workdays exclude_weekends
                          rs2 hA2 hd3 hdur
                      refine ⟨r, rest3, hrec, ?_, ?_, ?_⟩
                      · rw [hstart]; omega
                      · rw [hstart]; exact hd3
                      · intro x hx1 hx2
                        rw [hstart] at hx2
                        exact hd4 x (by omega) hx2

/-- Witness for C4: two chained single-task timelines starting Friday
2025-01-10 (= day 11); the second starts Monday 2025-01-13 (= day 14). -/
theorem C4_chained_timeline_starts_after_previous_witness :
    ∃ r rest, [(⟨"y", "B", 14, 14⟩ : ScheduleRecord)] = r :: rest ∧
      11 < r.Start ∧
      isWorkday true [] r.Start = true ∧
      ∀ x, 11 < x → x < r.Start → isWorkday true [] x = false :=
  C4_chained_timeline_starts_after_previous [] true
    [[⟨1, "A", "x"⟩], [⟨1, "B", "y"⟩]] 11
    [[⟨"x", "A", 11, 11⟩], [⟨"y", "B", 14, 14⟩]]
    (by decide) (by decide)
    0 [⟨"x", "A", 11, 11⟩] [⟨"y", "B", 14, 14⟩] 11
    (by decide) (by decide) (by decide) (by decide)

/-- C6 counterexample: with every day of the 30-day scan window excluded
(days 1 to 30 after the first timeline ends on day 0), the chainer does not
fail; it returns both frames, scheduling the second timeline from the
unchanged cursor so that it overlaps the first. -/
theorem C6_counterexample_exhausted_window_continues :
    (date_range (0 + 1) 30).filter
        (isWorkday true ((List.range 30).map (fun i => i + 1))) = [] ∧
      build_gantt_sequence [[⟨1, "A", "x"⟩], [⟨1, "B", "y"⟩]] 0
          ((List.range 30).map (fun i => i + 1)) true
        = some [[⟨"x", "A", 0, 0⟩], [⟨"y", "B", 0, 0⟩]] := by
  constructor
  · decide
  · decide

/-- C6 amended: when no qualifying workday exists in the 30-day scan window
after a timeline's maximum end date, the chainer raises nothing: the cursor
is left unchanged and the remaining timelines are scheduled from the same
cursor date. -/
theorem C6_amended_exhausted_window_keeps_cursor
    (tl : List TimelineTask) (tls : List (List TimelineTask)) (init_date : Nat)
    (non_workdays : List Nat) (exclude_weekends : Bool)
    (records : List ScheduleRecord) (last_date : Nat)
    (hdf : build_gantt_df tl init_date non_workdays exclude_weekends = some records)
    (hmax : maxEnd records = some last_date)
    (hwin : (date_range (last_date + 1) 30).filter
        (isWorkday exclude_weekends non_workdays) = []) :
    build_gantt_sequence (tl :: tls) init_date non_workdays exclude_weekends
      = (build_gantt_sequence tls init_date non_workdays exclude_weekends).map
          (fun rest => records :: rest) := by
  have hadv : advanceCursor last_date non_workdays exclude_weekends init_date = init_date := by
    unfold advanceCursor
    have hfind : (date_range (last_date + 1) 30).find?
        (isWorkday exclude_weekends non_workdays) = none := by
      rw [List.find?_eq_none]
      exact List.filter_eq_nil_iff.mp hwin
    rw [hfind]
  simp only [build_gantt_sequence, hdf, hmax, hadv]
  cases hrec : build_gantt_sequence tls init_date non_workdays exclude_weekends with
  | none => rfl
  | some rest => rfl

/-- Witness for the amended C6: first timeline ends day 0, days 1 to 30 all
excluded, second timeline scheduled from the unchanged cursor day 0. -/
theorem C6_amended_exhausted_window_keeps_cursor_witness :
    build_gantt_sequence [[⟨1, "A", "x"⟩], [⟨1, "B", "y"⟩]] 0
        ((List.range 30).map (fun i => i + 1)) true
      = (build_gantt_sequence [[⟨1, "B", "y"⟩]] 0
          ((List.range 30).map (fun i => i + 1)) true).map
          (fun rest => [⟨"x", "A", 0, 0⟩] :: rest) :=
  C6_amended_exhausted_window_keeps_cursor [⟨1, "A", "x"⟩] [[⟨1, "B", "y"⟩]] 0
    ((List.range 30).map (fun i => i + 1)) true [⟨"x", "A", 0, 0⟩] 0
    (by decide) (by decide) (by decide)
